import Mathlib

/-!
Verification of the DHCPv6 relay-chain core (`dhcpv6/dhcpv6relay.go`).

The envelope data structure and every algorithm on it (`ToBytes`, `Length`,
option management, `GetInnerMessage`, `GetInnerPeerAddr`,
`NewRelayReplFromRelayForw`) are translated from the source file.  The
external collaborators that the source file calls but does not define
(`DecapsulateRelay`, `EncapsulateRelay`, the option lookup helpers and the
option TLV contract) are modelled from the specification, as marked on each
such definition.  Go byte slices are lists of naturals, Go `nil` interface
values are `Option`, and Go `(value, error)` pairs are either `Except` or an
explicit pair, whichever is closer to the source control flow.
-/

/-- DHCPv6 message type code RELAY-FORW (12). -/
def RELAY_FORW : Nat := 12

/-- DHCPv6 message type code RELAY-REPL (13). -/
def RELAY_REPL : Nat := 13

/-- DHCPv6 option code for the interface-identifier option (18). -/
def OPTION_INTERFACE_ID : Nat := 18

/-- Fixed size of the relay envelope wire header, from the source constant. -/
def RelayHeaderSize : Nat := 34

/-- Modelled from the spec: the external Option collaborator, an opaque TLV
value exposing a code, a byte length and a serialization
(2-byte code, 2-byte length, payload). -/
structure Option6 where
  code : Nat
  payload : List Nat
deriving DecidableEq, Repr

/-- Modelled from the spec: an option's `Length()` is its payload byte count. -/
def Option6.Length (o : Option6) : Nat := o.payload.length

/-- Modelled from the spec: an option's `ToBytes()` is its 4-byte code+length
header followed by the payload (big-endian 16-bit fields, bytes reduced
mod 256). -/
def Option6.ToBytes (o : Option6) : List Nat :=
  [o.code / 256 % 256, o.code % 256,
   o.payload.length / 256 % 256, o.payload.length % 256] ++ o.payload

/-- The `DHCPv6Relay` struct of the source: message type, hop count, link
address, peer address and option list.  Addresses are byte lists (`net.IP`);
the relay-message payload carried via the external OPTION_RELAY_MSG option is
represented separately, on the `DHCPv6.relay` constructor below. -/
structure DHCPv6Relay where
  messageType : Nat
  hopCount : Nat
  linkAddr : List Nat
  peerAddr : List Nat
  options : List Option6
deriving DecidableEq, Repr

/-- A DHCPv6 message value: either a non-relay leaf message (opaque to this
core beyond its type code and options) or a relay envelope.  Modelled from the
spec: the inner message a relay envelope carries via the external
OPTION_RELAY_MSG option is the `relayMsg` component; `none` stands for a
malformed envelope that carries no inner message. -/
inductive DHCPv6 : Type where
  | msg (mtype : Nat) (opts : List Option6) : DHCPv6
  | relay (r : DHCPv6Relay) (relayMsg : Option DHCPv6) : DHCPv6

/-- `IsRelay`: a relay envelope unconditionally reports itself as a relay, a
leaf message as not a relay. -/
def DHCPv6.IsRelay : DHCPv6 → Bool
  | .msg _ _ => false
  | .relay _ _ => true

/-- Modelled from the spec: the option lookup helper `getOption` (not under
src) returns the first option with the given code, or nil. -/
def getOption (opts : List Option6) (code : Nat) : Option Option6 :=
  opts.find? (fun o => o.code == code)

/-- Modelled from the spec: the option lookup helper `getOptions` (not under
src) returns all options with the given code, in original order. -/
def getOptions (opts : List Option6) (code : Nat) : List Option6 :=
  opts.filter (fun o => o.code == code)

/-- `GetOneOption` from the source: first option with the given code. -/
def DHCPv6Relay.GetOneOption (r : DHCPv6Relay) (code : Nat) : Option Option6 :=
  getOption r.options code

/-- `GetOption` from the source: all options with the given code. -/
def DHCPv6Relay.GetOption (r : DHCPv6Relay) (code : Nat) : List Option6 :=
  getOptions r.options code

/-- `AddOption` from the source: append, no deduplication. -/
def DHCPv6Relay.AddOption (r : DHCPv6Relay) (o : Option6) : DHCPv6Relay :=
  { r with options := r.options ++ [o] }

/-- The option-list part of `UpdateOption` from the source: replace the first
option whose code matches, leaving the rest of the list untouched; append when
no option matches. -/
def updateOptionList (opts : List Option6) (o : Option6) : List Option6 :=
  match opts with
  | [] => [o]
  | x :: xs => if x.code == o.code then o :: xs else x :: updateOptionList xs o

/-- `UpdateOption` from the source. -/
def DHCPv6Relay.UpdateOption (r : DHCPv6Relay) (o : Option6) : DHCPv6Relay :=
  { r with options := updateOptionList r.options o }

/-- `AddOption` through the DHCPv6 interface: leaf messages and relay
envelopes both expose it (the leaf case is modelled from the spec, appending
to the leaf's options). -/
def DHCPv6.AddOption : DHCPv6 → Option6 → DHCPv6
  | .msg t os, o => .msg t (os ++ [o])
  | .relay r i, o => .relay (r.AddOption o) i

/-- Go `copy(dst[a:b], src)` on a byte list: overwrite positions `a ..` of
`dst` with at most `b - a` leading bytes of `src`, never growing `dst`. -/
def goCopy (dst : List Nat) (a b : Nat) (src : List Nat) : List Nat :=
  dst.take a ++ src.take (min (b - a) src.length)
    ++ dst.drop (a + min (b - a) src.length)

/-- The fixed-width 16-byte address field a stored address occupies on the
wire: its first 16 bytes, zero-filled up to 16 bytes. -/
def addrField (a : List Nat) : List Nat :=
  a.take 16 ++ List.replicate (16 - a.length) 0

/-- Concatenated TLV encodings of an option list, in list order. -/
def optionsBytes (opts : List Option6) : List Nat :=
  (opts.map Option6.ToBytes).flatten

/-- `ToBytes` from the source: allocate a zeroed 34-byte header, write the
message type byte and hop count byte, copy the link address into bytes 2-17
and the peer address into bytes 18-33, then append each option's encoding. -/
def DHCPv6Relay.ToBytes (r : DHCPv6Relay) : List Nat :=
  let ret0 := List.replicate RelayHeaderSize 0
  let ret1 := ret0.set 0 (r.messageType % 256)
  let ret2 := ret1.set 1 (r.hopCount % 256)
  let ret3 := goCopy ret2 2 18 r.linkAddr
  let ret4 := goCopy ret3 18 34 r.peerAddr
  ret4 ++ optionsBytes r.options

/-- `Length` from the source: the header size plus, for every option, its
length plus 4 for the option code and option length fields. -/
def DHCPv6Relay.Length (r : DHCPv6Relay) : Nat :=
  RelayHeaderSize + (r.options.map (fun o => o.Length + 4)).sum

/-- Error text of the modelled decapsulation failure on a malformed relay. -/
def relayMsgMissing : String := "no relay message found"

/-- Modelled from the spec: `DecapsulateRelay` (not under src) strips exactly
one relay layer; it fails when the input is not a relay, or when the relay is
malformed and carries no inner relay-message. -/
def DecapsulateRelay : DHCPv6 → Except String DHCPv6
  | .msg _ _ => .error "not a relay message"
  | .relay _ none => .error relayMsgMissing
  | .relay _ (some inner) => .ok inner

/-- Modelled from the spec: `EncapsulateRelay` (not under src) wraps a message
in one new relay envelope with the given type and addresses; the new
envelope's hop count is the inner hop count plus one for a relay payload and
zero for a leaf payload.  It fails only on a nil message.  The Go-style
`(value, error)` result pair is kept explicit because the caller in the
source inspects the value before the error. -/
def EncapsulateRelay (m : Option DHCPv6) (mtype : Nat) (link peer : List Nat) :
    Option DHCPv6 × Option String :=
  match m with
  | none => (none, some "cannot encapsulate a nil message")
  | some d =>
    (some (.relay
      { messageType := mtype
        hopCount := match d with | .relay r _ => r.hopCount + 1 | .msg _ _ => 0
        linkAddr := link
        peerAddr := peer
        options := [] } (some d)), none)

theorem decap_ok_sizeOf {d p : DHCPv6} (h : DecapsulateRelay d = .ok p) :
    sizeOf p < sizeOf d := by
  cases d with
  | msg t os => simp [DecapsulateRelay] at h
  | relay r oi =>
    cases oi with
    | none => simp [DecapsulateRelay, relayMsgMissing] at h
    | some q =>
      simp [DecapsulateRelay] at h
      subst h
      simp
      omega

/-- `GetInnerMessage` from the source: starting at the given message, return
it as soon as it is not a relay, otherwise decapsulate one hop and continue;
a decapsulation failure is returned as is. -/
def GetInnerMessage (d : DHCPv6) : Except String DHCPv6 :=
  if !d.IsRelay then .ok d
  else
    match h : DecapsulateRelay d with
    | .error e => .error e
    | .ok p => GetInnerMessage p
termination_by sizeOf d
decreasing_by exact decap_ok_sizeOf h

/-- The same loop as `GetInnerMessage`, additionally counting the single-hop
decapsulations performed on the successful path. -/
def GetInnerMessageSteps (d : DHCPv6) : Except String (DHCPv6 × Nat) :=
  if !d.IsRelay then .ok (d, 0)
  else
    match h : DecapsulateRelay d with
    | .error e => .error e
    | .ok p =>
      match GetInnerMessageSteps p with
      | .error e => .error e
      | .ok (m, n) => .ok (m, n + 1)
termination_by sizeOf d
decreasing_by exact decap_ok_sizeOf h

/-- The loop of `GetInnerPeerAddr` from the source, with the loop counter
`hops - i` as explicit fuel: decapsulate; on failure return the error; when
the result is a relay remember its peer address and continue; when it is not
a relay fail with the hop count mismatch error. -/
def peerLoop : Nat → DHCPv6 → List Nat → Except String (List Nat)
  | 0, _, addr => .ok addr
  | n + 1, p, _ =>
    match DecapsulateRelay p with
    | .error e => .error e
    | .ok q =>
      match q with
      | .relay r2 oi2 => peerLoop n (.relay r2 oi2) r2.peerAddr
      | .msg _ _ => .error "Wrong Hop count"

/-- `GetInnerPeerAddr` from the source: start from the envelope itself with
its own peer address, then loop its own hop count many times.  The receiver
is the envelope together with its relay-message payload. -/
def GetInnerPeerAddr (r : DHCPv6Relay) (relayMsg : Option DHCPv6) :
    Except String (List Nat) :=
  peerLoop r.hopCount (.relay r relayMsg) r.peerAddr

/-- One recorded hop of the unwind pass of `NewRelayReplFromRelayForw`: link
address, peer address and the recorded interface-identifier option, if any. -/
def Hop : Type := List Nat × List Nat × Option Option6

/-- The hop record taken from one envelope. -/
def hopOf (r : DHCPv6Relay) : Hop :=
  (r.linkAddr, r.peerAddr, r.GetOneOption OPTION_INTERFACE_ID)

/-- The unwind pass of `NewRelayReplFromRelayForw` from the source: record the
current envelope's link address, peer address and interface-identifier option,
then decapsulate; propagate a decapsulation failure; continue while the result
is still a relay, stop when it is not.  Records are returned outermost
first. -/
def unwindForw (r : DHCPv6Relay) (oi : Option DHCPv6) : Except String (List Hop) :=
  match h : DecapsulateRelay (.relay r oi) with
  | .error e => .error e
  | .ok (.msg _ _) => .ok [hopOf r]
  | .ok (.relay r2 oi2) =>
    match unwindForw r2 oi2 with
    | .error e => .error e
    | .ok hops => .ok (hopOf r :: hops)
termination_by sizeOf oi
decreasing_by
  cases oi with
  | none => simp [DecapsulateRelay, relayMsgMissing] at h
  | some q =>
    simp [DecapsulateRelay] at h
    subst h
    simp
    omega

/-- Go-style outcome of a function that can return a value, return an error,
or crash on a nil dereference. -/
inductive GoResult (α : Type) where
  | ok (a : α)
  | err (e : String)
  | crash
deriving DecidableEq, Repr

/-- Whether an outcome is a crash. -/
def GoResult.isCrash {α : Type} : GoResult α → Bool
  | .crash => true
  | _ => false

/-- The rewind pass of `NewRelayReplFromRelayForw` from the source, processing
the recorded hops innermost first.  Per hop, in source statement order: assign
the value and error returned by `EncapsulateRelay`; when an
interface-identifier option was recorded, call `AddOption` on the returned
value (on a nil value this is a nil dereference, modelled as `crash`); only
then check and return the error. -/
def rewindSteps : List Hop → Option DHCPv6 → GoResult (Option DHCPv6)
  | [], m => .ok m
  | (link, peer, iid) :: rest, m =>
    match EncapsulateRelay m RELAY_REPL link peer with
    | (mv, e) =>
      match iid with
      | some o =>
        match mv with
        | none => .crash
        | some d =>
          match e with
          | some s => .err s
          | none => rewindSteps rest (some (d.AddOption o))
      | none =>
        match e with
        | some s => .err s
        | none => rewindSteps rest mv

/-- `NewRelayReplFromRelayForw` from the source: validate that the forward
argument is a non-nil relay envelope of type RELAY_FORW and the answer a
non-nil non-relay message, unwind the forward chain recording one hop per
envelope, then rewind from the innermost recorded hop outwards, wrapping the
answer in RELAY_REPL envelopes. -/
def NewRelayReplFromRelayForw (relayForw msg : Option DHCPv6) :
    GoResult (Option DHCPv6) :=
  match relayForw with
  | none => .err "RELAY_FORW cannot be nil"
  | some fw =>
    match fw with
    | .msg _ _ => .err "Not a DHCPv6Relay"
    | .relay r oi =>
      if r.messageType ≠ RELAY_FORW then
        .err "The passed packet is not of type RELAY_FORW"
      else
        match msg with
        | none => .err "The passed message cannot be nil"
        | some m =>
          if m.IsRelay then .err "The passed message cannot be a relay"
          else
            match unwindForw r oi with
            | .error e => .err e
            | .ok hops => rewindSteps hops.reverse (some m)

/-- A relay chain: the given envelopes outermost first, each carrying the next
layer as its relay-message payload, wrapping the given terminal message. -/
def mkChain : List DHCPv6Relay → DHCPv6 → DHCPv6
  | [], m => m
  | r :: rs, m => .relay r (some (mkChain rs m))

/-- Stated from the claim: the expected RELAY_REPL chain for a recorded
forward chain — same depth, hop i of the reply carries hop i's link and peer
addresses from the forward chain plus hop i's recorded interface-identifier
option (and nothing else), and the innermost envelope directly wraps the
answer message.  Hop counts are the ones `EncapsulateRelay` assigns, zero at
the innermost envelope and increasing outwards. -/
def replyChainSpec : List DHCPv6Relay → DHCPv6 → DHCPv6
  | [], m => m
  | r :: rs, m =>
    .relay
      { messageType := RELAY_REPL
        hopCount := rs.length
        linkAddr := r.linkAddr
        peerAddr := r.peerAddr
        options := (r.GetOneOption OPTION_INTERFACE_ID).toList }
      (some (replyChainSpec rs m))

theorem take_min_sixteen (l : List Nat) : l.take (min 16 l.length) = l.take 16 := by
  rcases le_total l.length 16 with h | h
  · rw [min_eq_right h, List.take_length, List.take_of_length_le h]
  · rw [min_eq_left h]

theorem addrField_length (a : List Nat) : (addrField a).length = 16 := by
  simp [addrField]
  omega

theorem goCopy_cons2 (t hc : Nat) (X src : List Nat) :
    goCopy (t :: hc :: X) 2 18 src
      = t :: hc :: (src.take 16 ++ X.drop (min 16 src.length)) := by
  have h2 : (18 - 2 : Nat) = 16 := by norm_num
  unfold goCopy
  rw [h2, take_min_sixteen]
  have h3 : List.drop (2 + min 16 src.length) (t :: hc :: X)
      = X.drop (min 16 src.length) := by
    rw [← List.drop_drop]
    rfl
  rw [h3]
  simp

theorem toBytes_layout_eq (r : DHCPv6Relay) :
    r.ToBytes = [r.messageType % 256, r.hopCount % 256]
      ++ addrField r.linkAddr ++ addrField r.peerAddr ++ optionsBytes r.options := by
  have hstart : ((List.replicate RelayHeaderSize (0:Nat)).set 0 (r.messageType % 256)).set 1
      (r.hopCount % 256) = r.messageType % 256 :: r.hopCount % 256 :: List.replicate 32 0 := rfl
  have hk : min 16 r.linkAddr.length ≤ 16 := by omega
  have hdropX : (List.replicate 32 (0:Nat)).drop (min 16 r.linkAddr.length)
      = List.replicate (16 - r.linkAddr.length) 0 ++ List.replicate 16 0 := by
    rw [List.drop_replicate, ← List.replicate_add]
    congr 1
    omega
  have hcopy1 : goCopy (r.messageType % 256 :: r.hopCount % 256 :: List.replicate 32 0) 2 18 r.linkAddr
      = r.messageType % 256 :: r.hopCount % 256 :: (addrField r.linkAddr ++ List.replicate 16 0) := by
    rw [goCopy_cons2, hdropX, addrField]
    simp
  have hlen18 : (r.messageType % 256 :: r.hopCount % 256 :: addrField r.linkAddr).length = 18 := by
    simp [addrField_length]
  have hassoc : r.messageType % 256 :: r.hopCount % 256 :: (addrField r.linkAddr ++ List.replicate 16 0)
      = (r.messageType % 256 :: r.hopCount % 256 :: addrField r.linkAddr) ++ List.replicate 16 0 := by
    simp
  have hcopy2 : goCopy ((r.messageType % 256 :: r.hopCount % 256 :: addrField r.linkAddr)
        ++ List.replicate 16 0) 18 34 r.peerAddr
      = (r.messageType % 256 :: r.hopCount % 256 :: addrField r.linkAddr) ++ addrField r.peerAddr := by
    have h2 : (34 - 18 : Nat) = 16 := by norm_num
    unfold goCopy
    rw [h2, take_min_sixteen]
    rw [List.take_left' hlen18]
    have h3 : (((r.messageType % 256 :: r.hopCount % 256 :: addrField r.linkAddr)
          ++ List.replicate 16 0)).drop (18 + min 16 r.peerAddr.length)
        = (List.replicate 16 (0:Nat)).drop (min 16 r.peerAddr.length) := by
      rw [← List.drop_drop, List.drop_left' hlen18]
    rw [h3, List.drop_replicate]
    have h4 : 16 - min 16 r.peerAddr.length = 16 - r.peerAddr.length := by omega
    rw [h4]
    simp [addrField]
  show goCopy (goCopy (((List.replicate RelayHeaderSize (0:Nat)).set 0 (r.messageType % 256)).set 1
      (r.hopCount % 256)) 2 18 r.linkAddr) 18 34 r.peerAddr ++ optionsBytes r.options = _
  rw [hstart, hcopy1, hassoc, hcopy2]
  simp

theorem optionsBytes_length (opts : List Option6) :
    (optionsBytes opts).length = (opts.map (fun o => o.Length + 4)).sum := by
  induction opts with
  | nil => rfl
  | cons o os ih =>
    simp only [optionsBytes, List.map_cons, List.flatten_cons, List.length_append, List.sum_cons] at *
    rw [ih]
    simp [Option6.ToBytes, Option6.Length]

/-- Claim C5: `ToBytes` produces exactly `34 + sum(optionLength + 4)` bytes laid
out as message type byte, hop count byte, 16-byte link address field, 16-byte
peer address field (each field holding the stored address zero-padded when it
is shorter than 16 bytes or absent), followed by each option's own 4-byte
header plus payload TLV encoding in list order, with no padding or
envelope-level length prefix. -/
theorem toBytes_wire_layout (r : DHCPv6Relay)
    (h1 : r.messageType < 256) (h2 : r.hopCount < 256) :
    r.ToBytes = [r.messageType, r.hopCount]
        ++ addrField r.linkAddr ++ addrField r.peerAddr ++ optionsBytes r.options
  ∧ r.ToBytes.length
      = 34 + (r.options.map (fun o => o.Length + 4)).sum
  ∧ (addrField r.linkAddr).length = 16
  ∧ (addrField r.peerAddr).length = 16
  ∧ (r.linkAddr.length ≤ 16 →
      addrField r.linkAddr = r.linkAddr ++ List.replicate (16 - r.linkAddr.length) 0)
  ∧ (r.peerAddr.length ≤ 16 →
      addrField r.peerAddr = r.peerAddr ++ List.replicate (16 - r.peerAddr.length) 0)
  ∧ (∀ o : Option6, o.ToBytes.length = o.Length + 4) := by
  refine ⟨?_, ?_, addrField_length _, addrField_length _, ?_, ?_, ?_⟩
  · rw [toBytes_layout_eq, Nat.mod_eq_of_lt h1, Nat.mod_eq_of_lt h2]
  · rw [toBytes_layout_eq]
    simp [addrField_length, optionsBytes_length]
    omega
  · intro h
    rw [addrField, List.take_of_length_le h]
  · intro h
    rw [addrField, List.take_of_length_le h]
  · intro o
    simp [Option6.ToBytes, Option6.Length]

theorem toBytes_wire_layout_witness :
    ({ messageType := 12, hopCount := 1, linkAddr := [9], peerAddr := [8],
       options := [{ code := 18, payload := [7, 7] }] } : DHCPv6Relay).ToBytes
      = [12, 1] ++ addrField [9] ++ addrField [8]
        ++ optionsBytes [{ code := 18, payload := [7, 7] }] :=
  (toBytes_wire_layout _ (by norm_num) (by norm_num)).1

/-- Claim C6: for every envelope, `Length()` equals the byte length of
`ToBytes()`; under the modelled option contract every option's encoding is its
length plus 4 bytes. -/
theorem length_eq_toBytes_length (r : DHCPv6Relay) :
    r.Length = r.ToBytes.length := by
  rw [toBytes_layout_eq]
  simp [DHCPv6Relay.Length, RelayHeaderSize, addrField_length, optionsBytes_length]
  omega

/-- Claim C10: for every envelope, whenever the stored link address is longer
than 16 bytes its fixed field (bytes 2-17 of `ToBytes`) holds exactly its
first 16 bytes, and independently, whenever the stored peer address is longer
than 16 bytes its fixed field (bytes 18-33) holds exactly its first 16 bytes;
the header stays 34 bytes, the options always start unshifted at offset 34,
and `Length` does not depend on the stored address lengths.  Each implication
stands on its own, so mixed envelopes with only one over-long address are
covered. -/
theorem toBytes_truncates_long_addresses (r : DHCPv6Relay) :
    (16 < r.linkAddr.length →
      (r.ToBytes.drop 2).take 16 = r.linkAddr.take 16)
  ∧ (16 < r.peerAddr.length →
      (r.ToBytes.drop 18).take 16 = r.peerAddr.take 16)
  ∧ r.ToBytes.length
      = 34 + (r.options.map (fun o => o.Length + 4)).sum
  ∧ r.ToBytes.drop 34 = optionsBytes r.options
  ∧ (∀ (l p : List Nat),
      ({ r with linkAddr := l, peerAddr := p } : DHCPv6Relay).Length = r.Length) := by
  have hlink16 : (addrField r.linkAddr).length = 16 := addrField_length _
  have hpeer16 : (addrField r.peerAddr).length = 16 := addrField_length _
  have hdrop2 : r.ToBytes.drop 2
      = addrField r.linkAddr ++ (addrField r.peerAddr ++ optionsBytes r.options) := by
    rw [toBytes_layout_eq]
    simp
  have hdrop18 : r.ToBytes.drop 18
      = addrField r.peerAddr ++ optionsBytes r.options := by
    have h18 : r.ToBytes.drop 18 = (r.ToBytes.drop 2).drop 16 := by
      rw [List.drop_drop]
    rw [h18, hdrop2, List.drop_left' hlink16]
  refine ⟨?_, ?_, ?_, ?_, ?_⟩
  · intro h1
    rw [hdrop2, List.take_left' hlink16, addrField]
    have h0 : 16 - r.linkAddr.length = 0 := by omega
    rw [h0]
    simp
  · intro h2
    rw [hdrop18, List.take_left' hpeer16, addrField]
    have h0 : 16 - r.peerAddr.length = 0 := by omega
    rw [h0]
    simp
  · rw [toBytes_layout_eq]
    simp [addrField_length, optionsBytes_length]
    omega
  · have h34 : r.ToBytes.drop 34 = (r.ToBytes.drop 18).drop 16 := by
      rw [List.drop_drop]
    rw [h34, hdrop18, List.drop_left' hpeer16]
  · intro l p
    simp [DHCPv6Relay.Length]

def cEnvK : DHCPv6Relay :=
  { messageType := 12, hopCount := 0,
    linkAddr := [1, 2, 3, 4, 5, 6, 7, 8, 9, 10, 11, 12, 13, 14, 15, 16, 17],
    peerAddr := [9],
    options := [] }

def cEnvL : DHCPv6Relay :=
  { messageType := 12, hopCount := 0,
    linkAddr := [9],
    peerAddr := [1, 2, 3, 4, 5, 6, 7, 8, 9, 10, 11, 12, 13, 14, 15, 16, 17, 18],
    options := [] }

theorem toBytes_truncates_long_addresses_witness :
    (cEnvK.ToBytes.drop 2).take 16 = cEnvK.linkAddr.take 16
  ∧ (cEnvL.ToBytes.drop 18).take 16 = cEnvL.peerAddr.take 16 :=
  ⟨(toBytes_truncates_long_addresses cEnvK).1 (by decide),
   (toBytes_truncates_long_addresses cEnvL).2.1 (by decide)⟩

theorem updateOptionList_not_found (opts : List Option6) (o : Option6)
    (h : ∀ x ∈ opts, x.code ≠ o.code) : updateOptionList opts o = opts ++ [o] := by
  induction opts with
  | nil => rfl
  | cons x xs ih =>
    have hx : x.code ≠ o.code := h x (by simp)
    rw [updateOptionList]
    rw [if_neg (by simpa using hx)]
    rw [ih (fun y hy => h y (by simp [hy]))]
    simp

theorem updateOptionList_found (opts : List Option6) (o : Option6) :
    ∀ (i : Nat) (hi : i < opts.length),
      (opts.get ⟨i, hi⟩).code = o.code →
      (∀ (j : Nat) (hj : j < i), (opts.get ⟨j, lt_trans hj hi⟩).code ≠ o.code) →
      updateOptionList opts o = opts.set i o := by
  induction opts with
  | nil => intro i hi; simp at hi
  | cons x xs ih =>
    intro i hi hcode hfirst
    cases i with
    | zero =>
      simp only [List.get] at hcode
      rw [updateOptionList, if_pos (by simpa using hcode)]
      rfl
    | succ j =>
      have hx : x.code ≠ o.code := by
        have := hfirst 0 (Nat.succ_pos j)
        simpa using this
      rw [updateOptionList, if_neg (by simpa using hx)]
      have hj : j < xs.length := by simpa using hi
      rw [ih j hj (by simpa using hcode)
        (fun k hk => by
          have := hfirst (k + 1) (by omega)
          simpa using this)]
      rfl

/-- Claim C7: `UpdateOption` with a code not already present equals
`AddOption` (append at the end); with a code already present it replaces only
the first occurrence, in place, leaving every other position of the list
(later duplicates included) unchanged. -/
theorem updateOption_first_match (r : DHCPv6Relay) (o : Option6) :
    ((∀ x ∈ r.options, x.code ≠ o.code) → r.UpdateOption o = r.AddOption o)
  ∧ (∀ (i : Nat) (hi : i < r.options.length),
      (r.options.get ⟨i, hi⟩).code = o.code →
      (∀ (j : Nat) (hj : j < i), (r.options.get ⟨j, lt_trans hj hi⟩).code ≠ o.code) →
      (r.UpdateOption o).options = r.options.set i o) := by
  constructor
  · intro h
    rw [DHCPv6Relay.UpdateOption, DHCPv6Relay.AddOption,
      updateOptionList_not_found r.options o h]
  · intro i hi hcode hfirst
    rw [DHCPv6Relay.UpdateOption]
    exact updateOptionList_found r.options o i hi hcode hfirst

def wOptA : Option6 := { code := 1, payload := [] }

def wOptB : Option6 := { code := 2, payload := [5] }

def wOptC : Option6 := { code := 9, payload := [2] }

def wRelay1 : DHCPv6Relay :=
  { messageType := 12, hopCount := 0, linkAddr := [], peerAddr := [], options := [wOptA] }

def wRelay2 : DHCPv6Relay :=
  { messageType := 12, hopCount := 0, linkAddr := [], peerAddr := [],
    options := [{ code := 9, payload := [] }, { code := 9, payload := [1] }] }

theorem updateOption_first_match_witness :
    wRelay1.UpdateOption wOptB = wRelay1.AddOption wOptB
  ∧ (wRelay2.UpdateOption wOptC).options = wRelay2.options.set 0 wOptC :=
  ⟨(updateOption_first_match _ _).1 (by decide),
   (updateOption_first_match _ _).2 0 (by decide) (by decide) (fun j hj => by omega)⟩

theorem peerLoop_ok (k : Nat) :
    ∀ (r0 : DHCPv6Relay) (rs : List DHCPv6Relay) (t : Nat) (os : List Option6)
      (hk : k < (r0 :: rs).length),
      peerLoop k (.relay r0 (some (mkChain rs (.msg t os)))) r0.peerAddr
        = .ok (((r0 :: rs).get ⟨k, hk⟩).peerAddr) := by
  induction k with
  | zero => intro r0 rs t os hk; rfl
  | succ n ih =>
    intro r0 rs t os hk
    cases rs with
    | nil => simp at hk
    | cons r1 rs2 =>
      rw [mkChain]
      rw [peerLoop]
      simp only [DecapsulateRelay]
      have := ih r1 rs2 t os (by simp at hk ⊢; omega)
      rw [this]
      simp

theorem peerLoop_overflow (rs : List DHCPv6Relay) :
    ∀ (k : Nat) (r0 : DHCPv6Relay) (t : Nat) (os : List Option6) (a : List Nat),
      rs.length < k →
      peerLoop k (.relay r0 (some (mkChain rs (.msg t os)))) a
        = .error "Wrong Hop count" := by
  induction rs with
  | nil =>
    intro k r0 t os a hk
    cases k with
    | zero => simp at hk
    | succ n =>
      rw [mkChain, peerLoop]
      simp [DecapsulateRelay]
  | cons r1 rs2 ih =>
    intro k r0 t os a hk
    cases k with
    | zero => simp at hk
    | succ n =>
      rw [mkChain, peerLoop]
      simp only [DecapsulateRelay]
      rw [← mkChain]
      exact ih n r1 t os r1.peerAddr (by simp at hk; omega)

/-- Claim C2 (amended): for a chain of depth D (D envelopes wrapping a leaf)
whose outer envelope carries hopCount = D - 1, `GetInnerPeerAddr` returns the
peer address stored in the innermost (Dth) envelope; when hopCount is D or
larger the call fails with the hop count mismatch error and returns no
address. -/
theorem getInnerPeerAddr_hopCount (r0 : DHCPv6Relay) (rs : List DHCPv6Relay)
    (t : Nat) (os : List Option6) :
    (r0.hopCount = rs.length →
       GetInnerPeerAddr r0 (some (mkChain rs (.msg t os)))
         = .ok (((r0 :: rs).getLast (by simp)).peerAddr))
  ∧ ((r0 :: rs).length ≤ r0.hopCount →
       GetInnerPeerAddr r0 (some (mkChain rs (.msg t os)))
         = .error "Wrong Hop count") := by
  constructor
  · intro hh
    have hk : rs.length < (r0 :: rs).length := by simp
    rw [GetInnerPeerAddr, hh, peerLoop_ok rs.length r0 rs t os hk]
    congr 1
    rw [List.getLast_eq_get]
    simp
  · intro hh
    rw [GetInnerPeerAddr]
    exact peerLoop_overflow rs r0.hopCount r0 t os r0.peerAddr (by simp at hh ⊢; omega)

def cEnvA : DHCPv6Relay :=
  { messageType := 12, hopCount := 1, linkAddr := [1], peerAddr := [2], options := [] }

/-- Claim C2 counterexample: a depth-1 chain whose outer envelope has
hopCount = 1 (the depth).  The claim predicts the innermost peer address [2];
the code decapsulates once, lands on the non-relay leaf and fails with the
hop count mismatch error instead. -/
theorem getInnerPeerAddr_hopCount_eq_depth_fails :
    GetInnerPeerAddr cEnvA (some (.msg 1 [])) = .error "Wrong Hop count" := rfl

def cEnvB : DHCPv6Relay :=
  { messageType := 12, hopCount := 1, linkAddr := [1], peerAddr := [2], options := [] }

def cEnvC : DHCPv6Relay :=
  { messageType := 12, hopCount := 0, linkAddr := [3], peerAddr := [4], options := [] }

def cEnvD : DHCPv6Relay :=
  { messageType := 12, hopCount := 2, linkAddr := [1], peerAddr := [2], options := [] }

theorem getInnerPeerAddr_hopCount_witness :
    GetInnerPeerAddr cEnvB (some (.relay cEnvC (some (.msg 1 []))))
      = .ok cEnvC.peerAddr
  ∧ GetInnerPeerAddr cEnvD (some (.relay cEnvC (some (.msg 1 []))))
      = .error "Wrong Hop count" :=
  ⟨(getInnerPeerAddr_hopCount cEnvB [cEnvC] 1 []).1 (by decide),
   (getInnerPeerAddr_hopCount cEnvD [cEnvC] 1 []).2 (by decide)⟩


/-- Claim C8 (amended): for every chain of depth D and every hopCount k on the
outer envelope with k < D, `GetInnerPeerAddr` succeeds and returns the peer
address of the envelope at depth k, the innermost relay actually reached after
k decapsulations (with k = 0 the loop body never runs: the result is the
initial address, the outer envelope's own peer address, for every message and
any initial address). -/
theorem getInnerPeerAddr_under_count (r0 : DHCPv6Relay) (rs : List DHCPv6Relay)
    (t : Nat) (os : List Option6) (k : Nat) (hk : k < (r0 :: rs).length)
    (hh : r0.hopCount = k) :
    GetInnerPeerAddr r0 (some (mkChain rs (.msg t os)))
      = .ok (((r0 :: rs).get ⟨k, hk⟩).peerAddr)
  ∧ (∀ (p : DHCPv6) (a : List Nat), peerLoop 0 p a = .ok a) := by
  constructor
  · rw [GetInnerPeerAddr, hh]
    exact peerLoop_ok k r0 rs t os hk
  · intro p a
    rfl

def cEnvE : DHCPv6Relay :=
  { messageType := 12, hopCount := 2, linkAddr := [5], peerAddr := [6], options := [] }

def cEnvF : DHCPv6Relay :=
  { messageType := 12, hopCount := 1, linkAddr := [7], peerAddr := [8], options := [] }

/-- Claim C8 counterexample: a depth-2 chain whose outer envelope has
hopCount = 2.  The claim's range `0 <= k <= true depth` includes k = 2, where
it predicts success; the code decapsulates twice, lands on the non-relay leaf
and fails with the hop count mismatch error. -/
theorem getInnerPeerAddr_k_eq_depth_fails :
    GetInnerPeerAddr cEnvE (some (.relay cEnvF (some (.msg 3 []))))
      = .error "Wrong Hop count" := rfl

def cEnvG : DHCPv6Relay :=
  { messageType := 12, hopCount := 0, linkAddr := [5], peerAddr := [6], options := [] }

theorem getInnerPeerAddr_under_count_witness :
    GetInnerPeerAddr cEnvG (some (.relay cEnvF (some (.msg 3 []))))
      = .ok cEnvG.peerAddr :=
  (getInnerPeerAddr_under_count cEnvG [cEnvF] 3 [] 0 (by decide) (by decide)).1

theorem getInnerMessage_chain (rs : List DHCPv6Relay) (t : Nat) (os : List Option6) :
    GetInnerMessage (mkChain rs (.msg t os)) = .ok (.msg t os) := by
  induction rs with
  | nil =>
    rw [mkChain]
    unfold GetInnerMessage
    simp [DHCPv6.IsRelay]
  | cons r rs2 ih =>
    rw [mkChain]
    unfold GetInnerMessage
    simp only [DHCPv6.IsRelay, Bool.not_true, Bool.false_eq_true, if_false, DecapsulateRelay]
    exact ih

theorem getInnerMessageSteps_chain (rs : List DHCPv6Relay) (t : Nat) (os : List Option6) :
    GetInnerMessageSteps (mkChain rs (.msg t os)) = .ok (.msg t os, rs.length) := by
  induction rs with
  | nil =>
    rw [mkChain]
    unfold GetInnerMessageSteps
    simp [DHCPv6.IsRelay]
  | cons r rs2 ih =>
    rw [mkChain]
    unfold GetInnerMessageSteps
    simp only [DHCPv6.IsRelay, Bool.not_true, Bool.false_eq_true, if_false, DecapsulateRelay]
    rw [ih]
    simp

theorem getInnerMessage_broken (rs : List DHCPv6Relay) (r : DHCPv6Relay) :
    GetInnerMessage (mkChain rs (.relay r none)) = .error relayMsgMissing := by
  induction rs with
  | nil =>
    rw [mkChain]
    unfold GetInnerMessage
    simp [DHCPv6.IsRelay, DecapsulateRelay]
  | cons x xs ih =>
    rw [mkChain]
    unfold GetInnerMessage
    simp only [DHCPv6.IsRelay, Bool.not_true, Bool.false_eq_true, if_false, DecapsulateRelay]
    exact ih

/-- Claim C3: on a chain of depth D (D envelopes wrapping one non-relay leaf)
`GetInnerMessage` returns the leaf message, and its loop performs exactly D
single-hop decapsulations (the instrumented loop counts them); on a chain
whose innermost envelope is malformed, the decapsulation error is propagated
unchanged and no message is returned. -/
theorem getInnerMessage_depth (rs : List DHCPv6Relay) (t : Nat) (os : List Option6) :
    GetInnerMessage (mkChain rs (.msg t os)) = .ok (.msg t os)
  ∧ GetInnerMessageSteps (mkChain rs (.msg t os)) = .ok (.msg t os, rs.length)
  ∧ (∀ (rs2 : List DHCPv6Relay) (r : DHCPv6Relay),
      GetInnerMessage (mkChain rs2 (.relay r none))
        = DecapsulateRelay (.relay r none)) :=
  ⟨getInnerMessage_chain rs t os, getInnerMessageSteps_chain rs t os,
   fun rs2 r => getInnerMessage_broken rs2 r⟩

theorem unwindForw_chain (rs : List DHCPv6Relay) :
    ∀ (r0 : DHCPv6Relay) (t : Nat) (os : List Option6),
      unwindForw r0 (some (mkChain rs (.msg t os))) = .ok ((r0 :: rs).map hopOf) := by
  induction rs with
  | nil =>
    intro r0 t os
    rw [mkChain]
    unfold unwindForw
    simp [DecapsulateRelay]
  | cons r1 rs2 ih =>
    intro r0 t os
    rw [mkChain]
    unfold unwindForw
    simp only [DecapsulateRelay]
    rw [ih r1 t os]
    simp

/-- The envelope the rewind pass builds for one recorded hop around a given
inner message: a RELAY_REPL envelope carrying the hop's link and peer
addresses, whose only option is the recorded interface-identifier option when
one was recorded, and whose hop count continues the inner message's count. -/
def wrapRepl (hp : Hop) (m : DHCPv6) : DHCPv6 :=
  .relay
    { messageType := RELAY_REPL
      hopCount := match m with | .relay r _ => r.hopCount + 1 | .msg _ _ => 0
      linkAddr := hp.1
      peerAddr := hp.2.1
      options := hp.2.2.toList } (some m)

theorem rewindSteps_ok (hops : List Hop) :
    ∀ (m : DHCPv6),
      rewindSteps hops (some m)
        = .ok (some (hops.foldl (fun acc hp => wrapRepl hp acc) m)) := by
  induction hops with
  | nil => intro m; rfl
  | cons hp rest ih =>
    intro m
    obtain ⟨link, peer, iid⟩ := hp
    cases iid with
    | none =>
      rw [rewindSteps]
      simp only [EncapsulateRelay]
      rw [ih]
      rfl
    | some o =>
      rw [rewindSteps]
      simp only [EncapsulateRelay]
      rw [ih]
      rfl

theorem foldr_wrapRepl_replyChain (envs : List DHCPv6Relay) (t : Nat) (os : List Option6) :
    (envs.map hopOf).foldr wrapRepl (.msg t os) = replyChainSpec envs (.msg t os) := by
  induction envs with
  | nil => rfl
  | cons r rest ih =>
    rw [List.map_cons, List.foldr_cons, ih, replyChainSpec]
    rw [wrapRepl.eq_def]
    cases rest with
    | nil => rfl
    | cons r2 rest2 =>
      rw [replyChainSpec]
      simp [hopOf]

theorem foldl_reverse_replyChain (envs : List DHCPv6Relay) (t : Nat) (os : List Option6) :
    ((envs.map hopOf).reverse.foldl (fun acc hp => wrapRepl hp acc) (.msg t os))
      = replyChainSpec envs (.msg t os) := by
  rw [List.foldl_reverse]
  exact foldr_wrapRepl_replyChain envs t os

/-- Claim C1: on a depth-D RELAY_FORW chain and a non-relay answer message,
`NewRelayReplFromRelayForw` returns the depth-D RELAY_REPL chain in which hop
i carries hop i's link and peer addresses from the forward chain, the
innermost envelope directly wraps the answer, and each hop's recorded
interface-identifier option (when the hop had one) is attached to the
corresponding new envelope — the chain `replyChainSpec` describes. -/
theorem newRelayReplFromRelayForw_mirror (r0 : DHCPv6Relay) (rs : List DHCPv6Relay)
    (t1 t2 : Nat) (os1 os2 : List Option6) (hty : r0.messageType = RELAY_FORW) :
    NewRelayReplFromRelayForw (some (mkChain (r0 :: rs) (.msg t1 os1))) (some (.msg t2 os2))
      = .ok (some (replyChainSpec (r0 :: rs) (.msg t2 os2))) := by
  rw [mkChain, NewRelayReplFromRelayForw]
  simp only [hty, ne_eq, not_true_eq_false, if_false, DHCPv6.IsRelay, Bool.false_eq_true,
    ite_false]
  rw [unwindForw_chain rs r0 t1 os1]
  show rewindSteps ((r0 :: rs).map hopOf).reverse (some (.msg t2 os2)) = _
  rw [rewindSteps_ok]
  rw [foldl_reverse_replyChain (r0 :: rs) t2 os2]

def cEnvH : DHCPv6Relay :=
  { messageType := 12, hopCount := 1, linkAddr := [10], peerAddr := [11],
    options := [{ code := 18, payload := [1] }] }

theorem newRelayReplFromRelayForw_mirror_witness :
    NewRelayReplFromRelayForw (some (mkChain [cEnvH] (.msg 1 []))) (some (.msg 7 []))
      = .ok (some (replyChainSpec [cEnvH] (.msg 7 []))) :=
  newRelayReplFromRelayForw_mirror cEnvH [] 1 7 [] [] rfl

/-- Claim C4 (amended): the five argument validations each fail with their own
distinct error and no message: nil forward argument; non-relay forward
argument; relay forward argument whose type is not RELAY_FORW; nil answer;
relay answer.  These are the only validation failures, but they are not the
only failures of the function: decapsulation can also fail during the unwind
pass (see the counterexample). -/
theorem newRelayReplFromRelayForw_validation :
    (∀ m : Option DHCPv6,
        NewRelayReplFromRelayForw none m = .err "RELAY_FORW cannot be nil")
  ∧ (∀ (t : Nat) (os : List Option6) (m : Option DHCPv6),
        NewRelayReplFromRelayForw (some (.msg t os)) m = .err "Not a DHCPv6Relay")
  ∧ (∀ (r : DHCPv6Relay) (oi : Option DHCPv6) (m : Option DHCPv6),
        r.messageType ≠ RELAY_FORW →
        NewRelayReplFromRelayForw (some (.relay r oi)) m
          = .err "The passed packet is not of type RELAY_FORW")
  ∧ (∀ (r : DHCPv6Relay) (oi : Option DHCPv6),
        r.messageType = RELAY_FORW →
        NewRelayReplFromRelayForw (some (.relay r oi)) none
          = .err "The passed message cannot be nil")
  ∧ (∀ (r r2 : DHCPv6Relay) (oi oi2 : Option DHCPv6),
        r.messageType = RELAY_FORW →
        NewRelayReplFromRelayForw (some (.relay r oi)) (some (.relay r2 oi2))
          = .err "The passed message cannot be a relay")
  ∧ ["RELAY_FORW cannot be nil", "Not a DHCPv6Relay",
     "The passed packet is not of type RELAY_FORW",
     "The passed message cannot be nil",
     "The passed message cannot be a relay"].Nodup := by
  refine ⟨fun m => rfl, fun t os m => rfl, ?_, ?_, ?_, by decide⟩
  · intro r oi m h
    rw [NewRelayReplFromRelayForw.eq_def]
    simp [h]
  · intro r oi h
    rw [NewRelayReplFromRelayForw.eq_def]
    simp [h]
  · intro r r2 oi oi2 h
    rw [NewRelayReplFromRelayForw.eq_def]
    simp [h, DHCPv6.IsRelay]

def cEnvI : DHCPv6Relay :=
  { messageType := 13, hopCount := 0, linkAddr := [], peerAddr := [], options := [] }

def cEnvJ : DHCPv6Relay :=
  { messageType := 12, hopCount := 0, linkAddr := [], peerAddr := [], options := [] }

theorem newRelayReplFromRelayForw_validation_witness :
    NewRelayReplFromRelayForw (some (.relay cEnvI none)) (some (.msg 1 []))
      = .err "The passed packet is not of type RELAY_FORW"
  ∧ NewRelayReplFromRelayForw (some (.relay cEnvJ none)) (some (.relay cEnvI none))
      = .err "The passed message cannot be a relay" :=
  ⟨(newRelayReplFromRelayForw_validation).2.2.1 cEnvI none (some (.msg 1 [])) (by decide),
   (newRelayReplFromRelayForw_validation).2.2.2.2.1 cEnvJ cEnvI none none (by decide)⟩

/-- Claim C4 counterexample: the forward argument is a non-nil RELAY_FORW
relay envelope and the answer is a non-nil non-relay message — none of the
five listed failure conditions holds — yet the call fails, because the
envelope carries no inner relay-message and decapsulation fails during the
unwind pass.  The function therefore does not fail exactly when one of the
five conditions holds. -/
theorem newRelayReplFromRelayForw_fails_beyond_validation :
    NewRelayReplFromRelayForw (some (.relay cEnvJ none)) (some (.msg 1 []))
      = .err relayMsgMissing := by
  rw [NewRelayReplFromRelayForw.eq_def]
  simp only [cEnvJ, RELAY_FORW, DHCPv6.IsRelay, ne_eq, not_true_eq_false, if_false,
    Bool.false_eq_true, ite_false]
  unfold unwindForw
  simp [DecapsulateRelay]

theorem rewindSteps_not_crash (hops : List Hop) (m : DHCPv6) :
    (rewindSteps hops (some m)).isCrash = false := by
  rw [rewindSteps_ok]
  rfl

/-- Claim C9: `NewRelayReplFromRelayForw` never crashes on a nil dereference,
for any pair of arguments — in particular the rewind pass always applies
`AddOption` to a present message, even though the source applies it before
checking `EncapsulateRelay`'s error; this is safe because the modelled
`EncapsulateRelay` returns no error (and a present message) whenever its
input message is present, which the rewind pass guarantees, so every error
the function returns is a validation or decapsulation error propagated to the
caller. -/
theorem newRelayReplFromRelayForw_no_crash :
    (∀ relayForw msg : Option DHCPv6,
        (NewRelayReplFromRelayForw relayForw msg).isCrash = false)
  ∧ (∀ (d : DHCPv6) (ty : Nat) (link peer : List Nat),
        (EncapsulateRelay (some d) ty link peer).2 = none) := by
  constructor
  · intro relayForw msg
    cases relayForw with
    | none => rfl
    | some fw =>
      cases fw with
      | msg t os => rfl
      | relay r oi =>
        rw [NewRelayReplFromRelayForw.eq_def]
        by_cases hty : r.messageType = RELAY_FORW
        · simp only [hty, ne_eq, not_true_eq_false, if_false]
          cases msg with
          | none => rfl
          | some m =>
            cases m with
            | relay r2 oi2 => simp [DHCPv6.IsRelay, GoResult.isCrash]
            | msg t2 os2 =>
              simp only [DHCPv6.IsRelay, Bool.false_eq_true, ite_false]
              cases h : unwindForw r oi with
              | error e => simp [GoResult.isCrash]
              | ok hops => exact rewindSteps_not_crash hops.reverse (.msg t2 os2)
        · simp [hty]
          rfl
  · intro d ty link peer
    rfl
